import Mathlib

/-!
A shallow embedding of the core of the `picpro` PIC-programmer driver:
the chip-info fuse codec (`picpro/ChipInfoEntry.py`, `picpro/tools.py`),
the Intel-HEX reader (`picpro/HexFileReader.py`), the flash-image builder
(`picpro/FlashData.py`), the chip-config codec
(`picpro/protocol/ChipConfig.py`) and the programming-interface wire
commands (`picpro/protocol/IProgrammingInterface.py`,
`picpro/protocol/IConnection.py`), together with theorems checking the
specification's claims against the embedded code.

Bytes are modelled as `Nat` values below 256, 16-bit words as `Nat`
values below 65536; Python's fallible operations return `Except`/`Option`.
-/

namespace Picpro

/-- Error kinds raised by the embedded code (`picpro/exceptions.py` plus
Python's built-in `ValueError`). -/
inductive Err
  | fuseError
  | invalidRecordError
  | invalidChecksumError
  | invalidValueError
  | invalidResponseError
  | valueError
  deriving DecidableEq, Repr

/-! ## Byte helpers (`picpro/tools.py`) -/

/-- `tools.indexwise_and`: given fuse words and `(index, mask)` pairs,
AND-mask each indicated slot.  Python raises `IndexError` for an index out
of range; the theorems below only quantify over well-formed inputs whose
indices are in range, where `List.set`/`List.getD` agree with Python. -/
def indexwiseAnd (fuses : List Nat) (settingValues : List (Nat × Nat)) : List Nat :=
  settingValues.foldl (fun result p => result.set p.1 ((result.getD p.1 0) &&& p.2)) fuses

/-- `tools.swab_bytes`: swap the two bytes of each aligned pair.  The
Python code raises `IndexError` on odd input length; every call site in
`FlashData` passes an even-length buffer, on which this pairwise equation
agrees with the source. -/
def swabBytes : List Nat → List Nat
  | b0 :: b1 :: rest => b1 :: b0 :: swabBytes rest
  | _ => []

/-! ## Chip info entries (`picpro/ChipInfoEntry.py`) -/

/-- `ChipInfoEntry.core_type_dict`: symbolic core-type names and their
numeric codes (`newf12b` has none; see the source's FIXME). -/
def coreTypeDict : List (String × Option Nat) :=
  [("bit16_a", some 1), ("bit16_b", some 2), ("bit14_g", some 3), ("bit12_a", some 4),
   ("bit14_a", some 5), ("bit14_b", some 6), ("bit14_c", some 7), ("bit14_d", some 8),
   ("bit14_e", some 9), ("bit14_f", some 10), ("bit12_b", some 11), ("bit14_h", some 12),
   ("bit16_c", some 13), ("newf12b", none)]

/-- `ChipInfoEntry.get_core_bits`: derived core bit width from the numeric
core type; `none` models Python's `None` return. -/
def getCoreBits (coreType : Nat) : Option Nat :=
  if coreType ∈ [1, 2] then some 16
  else if coreType ∈ [3, 5, 6, 7, 8, 9, 10] then some 14
  else if coreType ∈ [4] then some 12
  else none

/-- A fuse's settings: setting name mapped to its `(fuse-index, mask)`
pairs, in definition order (Python dicts preserve insertion order). -/
abbrev SettingList := List (String × List (Nat × Nat))

/-- A chip's fuse table: fuse name mapped to its settings, in definition
order. -/
abbrev FuseTable := List (String × SettingList)

/-- The running state of `decode_fuse_data`'s scan over one fuse's
settings: the best (most-clearing) compatible mask footprint seen so far
and the setting recorded for it. -/
structure ScanState where
  best : List Nat
  chosen : Option String
  deriving DecidableEq, Repr

/-- One step of `decode_fuse_data`'s inner loop: a setting is considered
when AND-masking the observed words is idempotent on them, and recorded
when it strictly clears more bits than the best value so far. -/
def scanStep (fuseValues : List Nat) (st : ScanState) (s : String × List (Nat × Nat)) :
    ScanState :=
  if indexwiseAnd fuseValues s.2 = fuseValues then
    if indexwiseAnd st.best s.2 ≠ st.best then
      { best := indexwiseAnd st.best s.2, chosen := some s.1 }
    else st
  else st

/-- `decode_fuse_data`'s scan over one fuse's settings, starting from a
best value of all-ones (no bits cleared) and no recorded setting. -/
def scanFuse (fuseValues : List Nat) (settings : SettingList) : Option String :=
  (settings.foldl (scanStep fuseValues)
    { best := List.replicate fuseValues.length 0xffff, chosen := none }).chosen

/-- `ChipInfoEntry.decode_fuse_data`: for each declared fuse in definition
order, scan its settings for the compatible one clearing the most bits;
`FuseError` when none is recorded.  The Python result dict holds one key
per fuse in table order, modelled as an association list. -/
def decodeFuseData (fuses : FuseTable) (fuseValues : List Nat) :
    Except Err (List (String × String)) :=
  match fuses with
  | [] => .ok []
  | (name, settings) :: rest =>
    match scanFuse fuseValues settings with
    | none => .error .fuseError
    | some s =>
      match decodeFuseData rest fuseValues with
      | .error e => .error e
      | .ok tail => .ok ((name, s) :: tail)

/-- The loop of `ChipInfoEntry.encode_fuse_data` over the requested
`(fuse, setting)` pairs, accumulating onto the running word list. -/
def encodeGo (fuses : FuseTable) : List (String × String) → List Nat → Except Err (List Nat)
  | [], result => .ok result
  | (fuse, value) :: rest, result =>
    match fuses.lookup fuse with
    | none => .error .fuseError
    | some settings =>
      match settings.lookup value with
      | none => .error .fuseError
      | some masks => encodeGo fuses rest (indexwiseAnd result masks)

/-- `ChipInfoEntry.encode_fuse_data`: start from `fuse_blank` and AND-mask
the words indicated by each requested setting; unknown fuse or setting is
a `FuseError`. -/
def encodeFuseData (fuseBlank : List Nat) (fuses : FuseTable)
    (fuseDict : List (String × String)) : Except Err (List Nat) :=
  encodeGo fuses fuseDict fuseBlank

/-- One declared fuse with its settings split around the setting an
assignment chooses: the settings before it, the chosen setting's name and
masks, and the settings after it. -/
structure FuseChoice where
  fuseName : String
  pre : SettingList
  chosenName : String
  chosenMasks : List (Nat × Nat)
  suf : SettingList

/-- The fuse's full setting list, in definition order. -/
def FuseChoice.settings (f : FuseChoice) : SettingList :=
  f.pre ++ (f.chosenName, f.chosenMasks) :: f.suf

/-- The fuse table described by a list of choices. -/
def FuseChoice.table (fs : List FuseChoice) : FuseTable :=
  fs.map fun f => (f.fuseName, f.settings)

/-- The fully specified assignment a list of choices denotes. -/
def FuseChoice.assignment (fs : List FuseChoice) : List (String × String) :=
  fs.map fun f => (f.fuseName, f.chosenName)

/-- The running best value of `decode_fuse_data`'s scan after the
settings `pre`, starting (as the source does) from all-ones. -/
def prefixBest (w : List Nat) (pre : SettingList) : List Nat :=
  (pre.foldl (scanStep w) { best := List.replicate w.length 0xffff, chosen := none }).best

/-- The condition under which `decode_fuse_data`'s scan of one fuse ends
on the chosen setting: the chosen masks are idempotent on the observed
words (compatible), they strictly lower the running best accumulated over
the settings before them, and no compatible later setting lowers the best
any further. -/
abbrev ScanWinsAt (w : List Nat) (f : FuseChoice) : Prop :=
  indexwiseAnd w f.chosenMasks = w ∧
  indexwiseAnd (prefixBest w f.pre) f.chosenMasks ≠ prefixBest w f.pre ∧
  ∀ t ∈ f.suf, indexwiseAnd w t.2 = w →
    indexwiseAnd (indexwiseAnd (prefixBest w f.pre) f.chosenMasks) t.2 =
      indexwiseAnd (prefixBest w f.pre) f.chosenMasks

/-- A small 14-bit-style fuse table (blank word 0x3FFF, two fuses sharing
word 0) with the assignment WDT = Disabled, Oscillator = HS, used as the
concrete instance of the round-trip law. -/
def fsWitness : List FuseChoice :=
  [{ fuseName := "WDT", pre := [("Enabled", [(0, 0x3fff)])],
     chosenName := "Disabled", chosenMasks := [(0, 0x3ffb)], suf := [] },
   { fuseName := "Oscillator", pre := [("LP", [(0, 0x3ff8)]), ("XT", [(0, 0x3ff9)])],
     chosenName := "HS", chosenMasks := [(0, 0x3ffa)],
     suf := [("RC", [(0, 0x3fff)])] }]

/-! ## Hex file reader (`picpro/HexFileReader.py`) -/

/-- The effect of one parsed Intel-HEX record on the reader state. -/
inductive RecordAction
  | data (address : Nat) (bytes : List Nat)
  | eof
  | setExt (ext : Nat)
  deriving DecidableEq, Repr

/-- The record-type dispatch of `HexFileReader.__init__` (after length and
checksum validation): type 0 appends `(address | ext_address, data)`,
type 1 marks EOF, types 2 and 4 update the running extension address from
the record's big-endian 16-bit word, anything else raises
`InvalidRecordError`. -/
def processRecordType (recordType : Nat) (address : Nat) (data : List Nat)
    (extAddress : Nat) : Except Err RecordAction :=
  if recordType = 0 then .ok (.data (address ||| extAddress) data)
  else if recordType = 1 then .ok .eof
  else if recordType = 2 then .ok (.setExt ((data.getD 0 0 * 256 + data.getD 1 0) <<< 16))
  else if recordType = 4 then .ok (.setExt ((data.getD 0 0 * 256 + data.getD 1 0) <<< 4))
  else .error .invalidRecordError

/-! ## Chip config codec (`picpro/protocol/ChipConfig.py`) -/

/-- `ChipConfig`: the 26-byte configuration block read back from the
programmer. -/
structure ChipConfig where
  chip_id : Nat
  id : List Nat
  fuses : List Nat
  calibrate : Nat
  deriving DecidableEq, Repr

/-- `ChipConfig.from_bytes`: unpack `<HccccccccHHHHHHHH` — a little-endian
16-bit chip id, eight raw id bytes, seven little-endian 16-bit fuse words
and a little-endian 16-bit calibration word.  `struct.unpack` raises
unless the input is exactly 26 bytes, modelled by `none`. -/
def chipConfigFromBytes (data : List Nat) : Option ChipConfig :=
  if data.length = 26 then
    some
      { chip_id := data.getD 0 0 + 256 * data.getD 1 0
        id := (data.drop 2).take 8
        fuses :=
          [data.getD 10 0 + 256 * data.getD 11 0, data.getD 12 0 + 256 * data.getD 13 0,
           data.getD 14 0 + 256 * data.getD 15 0, data.getD 16 0 + 256 * data.getD 17 0,
           data.getD 18 0 + 256 * data.getD 19 0, data.getD 20 0 + 256 * data.getD 21 0,
           data.getD 22 0 + 256 * data.getD 23 0]
        calibrate := data.getD 24 0 + 256 * data.getD 25 0 }
  else none

/-- `ChipConfig.to_bytes`: pack the same `<HccccccccHHHHHHHH` layout from
the parsed fields (each 16-bit word low byte first, id bytes raw). -/
def chipConfigToBytes (c : ChipConfig) : List Nat :=
  [c.chip_id % 256, c.chip_id / 256] ++
  [c.id.getD 0 0, c.id.getD 1 0, c.id.getD 2 0, c.id.getD 3 0,
   c.id.getD 4 0, c.id.getD 5 0, c.id.getD 6 0, c.id.getD 7 0] ++
  [c.fuses.getD 0 0 % 256, c.fuses.getD 0 0 / 256,
   c.fuses.getD 1 0 % 256, c.fuses.getD 1 0 / 256,
   c.fuses.getD 2 0 % 256, c.fuses.getD 2 0 / 256,
   c.fuses.getD 3 0 % 256, c.fuses.getD 3 0 / 256,
   c.fuses.getD 4 0 % 256, c.fuses.getD 4 0 / 256,
   c.fuses.getD 5 0 % 256, c.fuses.getD 5 0 / 256,
   c.fuses.getD 6 0 % 256, c.fuses.getD 6 0 / 256] ++
  [c.calibrate % 256, c.calibrate / 256]

/-! ## `rom_is_blank` (`picpro/protocol/IProgrammingInterface.py`) -/

/-- The response loop of `IProgrammingInterface.rom_is_blank`.  `script`
models the successive results of `connection.read(1)`; an exhausted script
models a read timeout, whose empty result falls into the unexpected-byte
branch and raises `InvalidResponseError`.  `'Y'` (0x59) answers blank,
`'N'` (0x4e) and `'C'` (0x43) not blank; a `'B'` (0x42) progress byte
raises when `expected_b_bytes ≤ 0` and otherwise loops with the counter
unchanged (the source never decrements it). -/
def romIsBlankGo (expectedB : Int) : List Nat → Except Err Bool
  | [] => .error .invalidResponseError
  | b :: rest =>
    if b = 0x59 then .ok true
    else if b = 0x4e then .ok false
    else if b = 0x43 then .ok false
    else if b = 0x42 then
      if expectedB ≤ 0 then .error .invalidResponseError
      else romIsBlankGo expectedB rest
    else .error .invalidResponseError

/-- `rom_is_blank` with its progress-byte allowance
`expected_b_bytes = rom_size // 256 - 1` computed from the chip's ROM
size (the jump-table entry and exit exchanges are not modelled; they do
not affect the returned value). -/
def romIsBlank (romSize : Nat) (script : List Nat) : Except Err Bool :=
  romIsBlankGo ((romSize : Int) / 256 - 1) script

/-! ## Flash image builder (`picpro/FlashData.py`) -/

/-- `FlashData.MemoryRegion`; the source's `end` field is called `stop`
here because `end` is a Lean keyword. -/
structure MemoryRegion where
  start : Nat
  stop : Nat
  deriving DecidableEq, Repr

/-- `FlashData.MemoryMapping`. -/
structure MemoryMapping where
  rom : MemoryRegion
  eeprom : MemoryRegion
  config : MemoryRegion
  id : Option MemoryRegion
  deriving DecidableEq, Repr

/-- `FlashData.PaddedBuffer`. -/
structure PaddedBuffer where
  data : List Nat
  raw_size : Nat
  padding_size : Nat
  size : Nat
  deriving DecidableEq, Repr

/-- `PaddedBuffer.swab_bytes`: replace `data` with its byte-swapped form
(the bookkeeping fields are not touched by the source either). -/
def PaddedBuffer.swab (b : PaddedBuffer) : PaddedBuffer :=
  { b with data := swabBytes b.data }

/-- `FlashData._calculate_rom_blank_word`: `~(0xffff << core_bits) & 0xffff`;
for a non-negative Python int this is the bitwise complement of the low
16 bits. -/
def calculateRomBlankWord (coreBits : Nat) : Nat :=
  0xffff ^^^ ((0xffff <<< coreBits) &&& 0xffff)

/-- The memory map chosen in `FlashData.__init__` from the chip's core
bit width (`rom_size_bytes = rom_size * 2`). -/
def memoryMapping (coreBits romSizeBytes eepromSize : Nat) : MemoryMapping :=
  if coreBits = 16 then
    { rom := ⟨0, romSizeBytes⟩, eeprom := ⟨0xf000, 0xf100⟩,
      config := ⟨0x300000, 0x30000e⟩, id := some ⟨0x200000, 0x200010⟩ }
  else if coreBits = 12 then
    { rom := ⟨0, romSizeBytes⟩, config := ⟨romSizeBytes, 0x2000⟩,
      eeprom := ⟨0x2100 * 2, 0x2100 * 2 + max eepromSize 256⟩, id := none }
  else
    { rom := ⟨0, romSizeBytes⟩, config := ⟨0x4000, 0x4010⟩,
      eeprom := ⟨0x4200, 0x4200 + max eepromSize 256⟩, id := none }

/-- The loop of `FlashData._tobinarray_really` over
`enumerate(range(start, end))`, phrased by remaining count: looks each
address up in the sparse hex byte map, counts found bytes, raises
`ValueError` when a truthy (non-zero) found byte sits at an index beyond
`max_size` (note the source's `and found` truthiness test, which lets a
0x00 byte escape the check, and its strict `index > max_size`), and
appends the found byte or the pad callback's value while `index` is below
`max_size`. -/
def tobinarrayGo (hexBuf : Nat → Option Nat) (pad : Nat → Nat → Nat)
    (maxSize : Option Nat) (start : Nat) : Nat → Nat → Except Err (List Nat × Nat)
  | 0, _ => .ok ([], 0)
  | c + 1, index =>
    let address := start + index
    let found := hexBuf address
    let rawHere := if found.isSome then 1 else 0
    if maxSize.isSome ∧ found.getD 0 ≠ 0 ∧ maxSize.getD 0 < index then
      .error .valueError
    else
      match tobinarrayGo hexBuf pad maxSize start c (index + 1) with
      | .error e => .error e
      | .ok (tail, raw) =>
        if maxSize.isNone ∨ index < maxSize.getD 0 then
          .ok ((found.getD (pad address index)) :: tail, rawHere + raw)
        else .ok (tail, rawHere + raw)

/-- `FlashData._tobinarray_really`: build a fixed-length padded buffer
over a byte-address range; an odd result length raises `ValueError`. -/
def tobinarrayReally (hexBuf : Nat → Option Nat) (start stop : Nat)
    (pad : Nat → Nat → Nat) (maxSize : Option Nat) : Except Err PaddedBuffer :=
  match tobinarrayGo hexBuf pad maxSize start (stop - start) 0 with
  | .error e => .error e
  | .ok (buf, raw) =>
    if buf.length % 2 ≠ 0 then .error .valueError
    else .ok { data := buf, raw_size := raw, padding_size := buf.length - raw,
               size := buf.length }

/-- `struct.pack('>H', w)` word by word (words must be below 0x10000, as
`struct.pack` raises otherwise; `fuse_blank` words are 16-bit). -/
def packBE16 (words : List Nat) : List Nat :=
  words.flatMap fun w => [w / 256, w % 256]

/-- Parse a byte buffer as big-endian 16-bit words, as `fuse_data` does
with `struct.unpack('>H', ...)` on each aligned pair. -/
def unpackBE16 : List Nat → List Nat
  | b0 :: b1 :: rest => (b0 * 256 + b1) :: unpackBE16 rest
  | _ => []

/-- `FlashData._filter_records`: build the ROM, EEPROM, config, fuse and
(16-bit only) user-ID buffers.  The ROM pad cycles through the
little-endian bytes of the blank word (`struct.pack('<H', ...)` is low
byte first), the EEPROM pad is 0xFF, config and ID pads are 0x00, and the
fuse pad indexes the big-endian-packed `fuse_blank` bytes. -/
def filterRecords (hexBuf : Nat → Option Nat) (coreBits romSize eepromSize : Nat)
    (fuseBlank : List Nat) :
    Except Err (PaddedBuffer × PaddedBuffer × PaddedBuffer × PaddedBuffer ×
      Option PaddedBuffer) := do
  let romBlankWord := calculateRomBlankWord coreBits
  let romBlankBytes := [romBlankWord % 256, romBlankWord / 256]
  let mapping := memoryMapping coreBits (romSize * 2) eepromSize
  let fuseDataBlank := packBE16 fuseBlank
  let rom ← tobinarrayReally hexBuf mapping.rom.start mapping.rom.stop
    (fun _ i => romBlankBytes.getD (i % 2) 0) (some (romSize * 2))
  let eeprom ← tobinarrayReally hexBuf mapping.eeprom.start mapping.eeprom.stop
    (fun _ _ => 0xff) (some eepromSize)
  let config ← tobinarrayReally hexBuf mapping.config.start mapping.config.stop
    (fun _ _ => 0x00) none
  let fuse ←
    if coreBits = 16 then
      tobinarrayReally hexBuf 0x300000 0x30000e (fun _ i => fuseDataBlank.getD i 0) none
    else
      tobinarrayReally hexBuf 0x400e 0x4010 (fun _ i => fuseDataBlank.getD i 0) none
  let idBuf ←
    match mapping.id with
    | some r =>
      (tobinarrayReally hexBuf r.start r.stop (fun _ _ => 0x00) none).map some
    | none => pure none
  return (rom, eeprom, config, fuse, idBuf)

/-- The scan loop of `FlashData._is_little_endian`: walk the buffer two
bytes at a time; the guard `(x + 2) < size` makes the loop skip the pair
that ends exactly at the buffer's end, so the last word is never
examined and the loop falls through to `return False`. -/
def isLittleEndianGo (blank : Nat) : List Nat → Except Err Bool
  | b0 :: b1 :: rest =>
    if rest.isEmpty then .ok false
    else
      let beWord := b0 * 256 + b1
      let leWord := b1 * 256 + b0
      let beOk := beWord &&& blank == beWord
      let leOk := leWord &&& blank == leWord
      if beOk && !leOk then .ok false
      else if leOk && !beOk then .ok true
      else if !(leOk || beOk) then .error .valueError
      else isLittleEndianGo blank rest
  | _ => .ok false

/-- `FlashData._is_little_endian`: 16-bit cores are little-endian without
scanning; otherwise scan the ROM buffer. -/
def isLittleEndian (coreBits blank : Nat) (rom : List Nat) : Except Err Bool :=
  if coreBits = 16 then .ok true else isLittleEndianGo blank rom

/-- Modelled from the spec's words for claim C6's comparison: scan every
ROM word in address order; the first word for which exactly one of
`be_ok`/`le_ok` holds decides the endianness, a word where both hold is
skipped, a word where neither holds fails; `none` when no word decides. -/
def specEndiannessScan (blank : Nat) : List Nat → Except Err (Option Bool)
  | b0 :: b1 :: rest =>
    let beWord := b0 * 256 + b1
    let leWord := b1 * 256 + b0
    let beOk := beWord &&& blank == beWord
    let leOk := leWord &&& blank == leWord
    if beOk && !leOk then .ok (some false)
    else if leOk && !beOk then .ok (some true)
    else if !(leOk || beOk) then .error .valueError
    else specEndiannessScan blank rest
  | _ => .ok none

/-- `dict.update` on the decoded fuse settings: existing keys keep their
position and take the override's value, new keys are appended. -/
def dictUpdate (base upd : List (String × String)) : List (String × String) :=
  (base.map fun kv => (kv.1, (upd.lookup kv.1).getD kv.2)) ++
    upd.filter fun kv => (base.lookup kv.1).isNone

/-- The state of a built `FlashData` image: the chip parameters it was
constructed from plus the five buffers produced by `_filter_records`
(after any byte swap) and the mutable `calibration_word` slot. -/
structure FlashData where
  coreBits : Nat
  romSize : Nat
  eepromSize : Nat
  fuseBlank : List Nat
  calWord : Bool
  picId : Option String
  fusesOverride : Option (List (String × String))
  fuses : FuseTable
  calibrationWord : Option (List Nat)
  romBuffer : PaddedBuffer
  eepromBuffer : PaddedBuffer
  configBuffer : PaddedBuffer
  fuseBuffer : PaddedBuffer
  idBuffer : Option PaddedBuffer
  deriving Repr

/-- `FlashData.__init__` + `process`: build the buffers, detect
endianness on the ROM buffer, byte-swap every buffer when the file is
little-endian, and validate any fuse overrides by encoding them (a Python
empty/None override dict is falsy and skips the check, modelled by
`none`). -/
def mkFlashData (coreBits romSize eepromSize : Nat) (fuseBlank : List Nat)
    (calWord : Bool) (picId : Option String)
    (fusesOverride : Option (List (String × String))) (fuses : FuseTable)
    (hexBuf : Nat → Option Nat) : Except Err FlashData := do
  let (rom, eeprom, config, fuse, idBuf) ←
    filterRecords hexBuf coreBits romSize eepromSize fuseBlank
  let isSwap ← isLittleEndian coreBits (calculateRomBlankWord coreBits) rom.data
  let rom := if isSwap then rom.swab else rom
  let config := if isSwap then config.swab else config
  let eeprom := if isSwap then eeprom.swab else eeprom
  let fuse := if isSwap then fuse.swab else fuse
  let idBuf := if isSwap then idBuf.map PaddedBuffer.swab else idBuf
  match fusesOverride with
  | some ov => do
    let _ ← encodeFuseData fuseBlank fuses ov
    pure ()
  | none => pure ()
  return { coreBits, romSize, eepromSize, fuseBlank, calWord, picId, fusesOverride,
           fuses, calibrationWord := none, romBuffer := rom, eepromBuffer := eeprom,
           configBuffer := config, fuseBuffer := fuse, idBuffer := idBuf }

/-- `FlashData.set_calibration_word`: raises `ValueError` when the chip
has no calibration word in ROM, otherwise stores the word. -/
def set_calibration_word (fd : FlashData) (w : Option (List Nat)) :
    Except Err FlashData :=
  if !fd.calWord then .error .valueError
  else .ok { fd with calibrationWord := w }

/-- `FlashData.rom_data`: the ROM buffer, with its last two bytes
replaced by the calibration word when one is set (non-empty — Python
truthiness) and the chip has `cal_word`. -/
def rom_data (fd : FlashData) : List Nat :=
  match fd.calibrationWord with
  | some w =>
    if w ≠ [] ∧ fd.calWord then fd.romBuffer.data.take (fd.romBuffer.size - 2) ++ w
    else fd.romBuffer.data
  | none => fd.romBuffer.data

/-- `FlashData.eeprom_data`. -/
def eeprom_data (fd : FlashData) : List Nat :=
  fd.eepromBuffer.data

/-- One hex digit, as `bytes.fromhex` accepts. -/
def hexDigit (c : Char) : Option Nat :=
  if '0' ≤ c ∧ c ≤ '9' then some (c.toNat - '0'.toNat)
  else if 'a' ≤ c ∧ c ≤ 'f' then some (c.toNat - 'a'.toNat + 10)
  else if 'A' ≤ c ∧ c ≤ 'F' then some (c.toNat - 'A'.toNat + 10)
  else none

/-- `bytes.fromhex` on the digit pairs of a string (spaces skipped, an
odd digit count or a bad character raises, modelled by `none`). -/
def bytesFromHexGo : List Char → Option (List Nat)
  | [] => some []
  | c1 :: c2 :: rest =>
    match hexDigit c1, hexDigit c2, bytesFromHexGo rest with
    | some d1, some d2, some tail => some ((d1 * 16 + d2) :: tail)
    | _, _, _ => none
  | _ => none

/-- `bytes.fromhex`. -/
def bytesFromHex (s : String) : Option (List Nat) :=
  bytesFromHexGo (s.data.filter (· ≠ ' '))

/-- `FlashData.id_data`: an explicit truthy `pic_id` is hex-decoded with
no length check; otherwise take the first 8 bytes of the ID buffer (16-bit
cores) or the config buffer, returned whole for 16-bit cores and
compacted to every second byte (offset 1) otherwise — `none` models the
`IndexError`/`fromhex` failures Python would raise. -/
def id_data (fd : FlashData) : Option (List Nat) :=
  let extract : Option (List Nat) :=
    let idBytes := match fd.idBuffer with
      | some b => b.data.take 8
      | none => fd.configBuffer.data.take 8
    if fd.coreBits == 16 then some idBytes
    else if 8 ≤ idBytes.length then
      some [idBytes.getD 1 0, idBytes.getD 3 0, idBytes.getD 5 0, idBytes.getD 7 0]
    else none
  match fd.picId with
  | some s => if s ≠ "" then bytesFromHex s else extract
  | none => extract

/-- `FlashData.fuse_data`: parse the fuse buffer as big-endian words;
with a truthy override dict, decode the words symbolically, merge the
overrides in and re-encode. -/
def fuse_data (fd : FlashData) : Except Err (List Nat) :=
  let fuseValues := unpackBE16 fd.fuseBuffer.data
  match fd.fusesOverride with
  | none => .ok fuseValues
  | some ov =>
    match decodeFuseData fd.fuses fuseValues with
    | .error e => .error e
    | .ok settings => encodeFuseData fd.fuseBlank fd.fuses (dictUpdate settings ov)

/-- The empty (blank) hex file: no byte at any address. -/
def emptyHex : Nat → Option Nat := fun _ => none

/-- Every full word of a buffer except its final one — the words the
`(x + 2) < size` guard lets `_is_little_endian` examine. -/
def exceptLastWord : List Nat → List Nat
  | b0 :: b1 :: rest => if rest.isEmpty then [] else b0 :: b1 :: exceptLastWord rest
  | _ => []

/-- A hand-built 14-bit `FlashData` state with a 16-byte config buffer
and no explicit id, for the C8 witness. -/
def fdIdWitness : FlashData :=
  { coreBits := 14, romSize := 16, eepromSize := 8, fuseBlank := [0x3fff],
    calWord := false, picId := none, fusesOverride := none, fuses := [],
    calibrationWord := none,
    romBuffer := ⟨List.replicate 32 0xff, 0, 32, 32⟩,
    eepromBuffer := ⟨List.replicate 8 0xff, 0, 8, 8⟩,
    configBuffer := ⟨List.replicate 16 0x00, 0, 16, 16⟩,
    fuseBuffer := ⟨[0xff, 0x3f], 0, 2, 2⟩,
    idBuffer := none }

/-- A hand-built `FlashData` state with `cal_word` set and a 4-byte ROM
buffer, for the C10 witness. -/
def fdCalWitness : FlashData :=
  { coreBits := 14, romSize := 2, eepromSize := 0, fuseBlank := [0x3fff],
    calWord := true, picId := none, fusesOverride := none, fuses := [],
    calibrationWord := none,
    romBuffer := ⟨[1, 2, 3, 4], 0, 4, 4⟩,
    eepromBuffer := ⟨[], 0, 0, 0⟩,
    configBuffer := ⟨List.replicate 16 0x00, 0, 16, 16⟩,
    fuseBuffer := ⟨[0xff, 0x3f], 0, 2, 2⟩,
    idBuffer := none }

/-! ## Programming interface wire commands
(`picpro/protocol/IProgrammingInterface.py`, `IConnection.py`) -/

/-- Semantic protocol events recorded by the embedded connection:
entering the jump table, the voltages-on and voltages-off exchanges,
ending the jump, and an input flush. -/
inductive Ev
  | cmdStart
  | vppOn
  | vppOff
  | cmdEnd
  | flush
  deriving DecidableEq, Repr

/-- A wire computation: `script` holds the bytes the device will answer
with (each one-byte read consumes one; an exhausted script models a read
timeout, whose result is Python's empty bytes), the second list is the
event trace recorded so far.  `none` models a raised exception, which
aborts the rest of the computation. -/
def M (α : Type) : Type := List Nat → List Ev → Option α × List Nat × List Ev

/-- Monadic return. -/
def M.pure (a : α) : M α := fun s t => (some a, s, t)

/-- Monadic sequencing: a raised exception propagates. -/
def M.bind (m : M α) (k : α → M β) : M β := fun s t =>
  match m s t with
  | (none, s', t') => (none, s', t')
  | (some a, s', t') => k a s' t'

instance : Monad M where
  pure := M.pure
  bind := M.bind

/-- A raised exception (`InvalidValueError` / `InvalidResponseError`). -/
def M.fail : M α := fun s t => (none, s, t)

/-- `connection.read(1)`: one scripted byte, or `none` for the empty
result of a timed-out read. -/
def readOpt : M (Option Nat) := fun s t =>
  match s with
  | [] => (some none, [], t)
  | b :: rest => (some (some b), rest, t)

/-- `connection.read(count)`: up to `count` scripted bytes (a short read
models a timeout; the caller sees whatever arrived). -/
def readN (n : Nat) : M (List Nat) := fun s t => (some (s.take n), s.drop n, t)

/-- `serial_connection.write(...)`: host-to-device bytes do not touch the
device's scripted answers. -/
def writeBytes (_bs : List Nat) : M Unit := M.pure ()

/-- Record a semantic event. -/
def emit (e : Ev) : M Unit := fun s t => (some (), s, t ++ [e])

/-- `connection.expect(bytes([e]))`: read one byte, raise
`InvalidResponseError` unless it matches. -/
def expectByte (e : Nat) : M Unit :=
  readOpt >>= fun r => if r = some e then M.pure () else M.fail

/-- `connection.command_start(cmd)`: send `0x01`, expect `'Q'`; send
`'P'`, require the `'P'` acknowledgement; then send the opcode when one
is given.  Records `.cmdStart` once the jump table is entered. -/
def commandStart (cmd : Option Nat) : M Unit := do
  writeBytes [0x01]
  expectByte 0x51
  writeBytes [0x50]
  let ack ← readOpt
  if ack = some 0x50 then do
    writeBytes cmd.toList
    emit .cmdStart
  else M.fail

/-- `connection.command_end`: send `0x01`, require the `'Q'`
acknowledgement.  Records `.cmdEnd` when the jump table is exited. -/
def commandEnd : M Unit := do
  writeBytes [0x01]
  let ack ← readOpt
  if ack = some 0x51 then emit .cmdEnd else M.fail

/-- `set_programming_voltages_command(on)`: opcode 4 / expect `'V'` to
turn the programming voltages on, opcode 5 / expect `'v'` to turn them
off.  Records `.vppOn` / `.vppOff` on completion of the exchange. -/
def setProgrammingVoltages (isOn : Bool) : M Unit :=
  if isOn then do
    writeBytes [4]
    expectByte 0x56
    emit .vppOn
  else do
    writeBytes [5]
    expectByte 0x76
    emit .vppOff

/-- `serial_connection.flushInput()` in `program_rom`'s handler: recorded
as an event; the device's future answers are unaffected. -/
def flushInput : M Unit := fun s t => (some (), s, t ++ [.flush])

/-- `try ... except InvalidResponseError: flushInput(); raise` — on
failure of the body, flush and re-raise. -/
def onInvalidResponseFlush (m : M α) : M α := fun s t =>
  match m s t with
  | (none, s', t') => (none, s', t' ++ [Ev.flush])
  | ok => ok

/-- The per-chunk loop of `program_rom`: each 32-byte packet is written
and acknowledged with `'Y'`. -/
def programRomChunks : Nat → M Unit
  | 0 => M.pure ()
  | n + 1 => do
    writeBytes []
    expectByte 0x59
    programRomChunks n

/-- `IProgrammingInterface.program_rom`: size guards, jump entry,
voltages on, opcode and word count, first `'Y'`, then the packet loop and
final `'P'` under the flush-on-error handler, then voltages off and jump
exit.  The guards and the first `'Y'` are outside the handler, as in the
source. -/
def programRom (romSize : Nat) (data : List Nat) : M Unit := do
  let wordCount := data.length / 2
  if romSize < wordCount then M.fail
  else if (wordCount * 2) % 32 ≠ 0 then M.fail
  else do
    commandStart none
    setProgrammingVoltages true
    writeBytes [7]
    writeBytes [wordCount / 256, wordCount % 256]
    expectByte 0x59
    onInvalidResponseFlush (do
      programRomChunks ((wordCount * 2) / 32)
      expectByte 0x50)
    setProgrammingVoltages false
    commandEnd

/-- The per-chunk loop of `program_eeprom`: two data bytes then `'Y'`. -/
def programEepromChunks : Nat → M Unit
  | 0 => M.pure ()
  | n + 1 => do
    writeBytes []
    expectByte 0x59
    programEepromChunks n

/-- `IProgrammingInterface.program_eeprom`: size guards, jump entry,
voltages on, opcode and byte count, `'Y'`, two-byte chunks each `'Y'`,
the two protocol-quirk zero bytes, `'P'`, voltages off, jump exit.  No
flush handler in the source. -/
def programEeprom (eepromSize : Nat) (data : List Nat) : M Unit := do
  let byteCount := data.length
  if eepromSize < byteCount then M.fail
  else if byteCount % 2 ≠ 0 then M.fail
  else do
    commandStart none
    setProgrammingVoltages true
    writeBytes [8]
    writeBytes [byteCount / 256, byteCount % 256]
    expectByte 0x59
    programEepromChunks (byteCount / 2)
    writeBytes [0x00, 0x00]
    expectByte 0x50
    setProgrammingVoltages false
    commandEnd

/-- The argument guards of `program_id_fuses`: an 8-byte id and 7 fuse
words on a 16-bit core, a 4-byte id and a single fuse word otherwise;
violations raise `InvalidValueError`. -/
def programIdFusesGuard (coreBits : Nat) (picId : List Nat) (fuses : List Nat) :
    M Unit :=
  if coreBits = 16 then
    if picId.length ≠ 8 then M.fail
    else if fuses.length ≠ 7 then M.fail
    else M.pure ()
  else
    if fuses.length ≠ 1 then M.fail
    else if picId.length ≠ 4 then M.fail
    else M.pure ()

/-- `IProgrammingInterface.program_id_fuses`: id/fuse-count guards per
core width, jump entry, voltages on, opcode and body, one response byte,
voltages off, jump exit, and only then the `'Y'` check; `true` means a
16-bit fuse transaction handle is returned. -/
def programIdFuses (coreBits : Nat) (picId : List Nat) (fuses : List Nat) :
    M Bool := do
  programIdFusesGuard coreBits picId fuses
  commandStart none
  setProgrammingVoltages true
  writeBytes [9]
  writeBytes picId
  let response ← readOpt
  setProgrammingVoltages false
  commandEnd
  if response = some 0x59 then M.pure (coreBits = 16) else M.fail

/-- `IProgrammingInterface.program_calibration`: jump entry, voltages on,
opcode and calibration/fuse payload, one response byte, voltages off,
jump exit, then the `'Y'` check (`'C'`/`'F'` report failures). -/
def programCalibration : M Unit := do
  commandStart none
  setProgrammingVoltages true
  writeBytes [10]
  writeBytes []
  let response ← readOpt
  setProgrammingVoltages false
  commandEnd
  if response = some 0x59 then M.pure () else M.fail

/-- `IProgrammingInterface.read_rom`: jump entry, voltages on, opcode,
read `rom_size * 2` bytes, voltages off, jump exit. -/
def readRom (romSize : Nat) : M (List Nat) := do
  commandStart none
  setProgrammingVoltages true
  writeBytes [11]
  let response ← readN (romSize * 2)
  setProgrammingVoltages false
  commandEnd
  M.pure response

/-- `IProgrammingInterface.read_eeprom`: like `read_rom` with
`eeprom_size` bytes. -/
def readEeprom (eepromSize : Nat) : M (List Nat) := do
  commandStart none
  setProgrammingVoltages true
  writeBytes [12]
  let response ← readN eepromSize
  setProgrammingVoltages false
  commandEnd
  M.pure response

/-- `IProgrammingInterface.read_config`: jump entry, voltages on, opcode,
the `'C'` acknowledgement (raising before voltages-off when absent), 26
config bytes, voltages off, jump exit. -/
def readConfig : M (List Nat) := do
  commandStart none
  setProgrammingVoltages true
  writeBytes [13]
  let ack ← readN 1
  if ack ≠ [0x43] then M.fail
  else do
    let response ← readN 26
    setProgrammingVoltages false
    commandEnd
    M.pure response

/-- `IProgrammingInterface.erase_chip`: jump entry, voltages on, opcode,
one response byte, voltages off, jump exit, then the `'Y'` check. -/
def eraseChip : M Unit := do
  commandStart none
  setProgrammingVoltages true
  writeBytes [14]
  let response ← readN 1
  setProgrammingVoltages false
  commandEnd
  if response = [0x59] then M.pure () else M.fail

/-- The eight chip-manipulation commands that turn the programming
voltages on, with their arguments. -/
inductive VppCommand
  | programRom (romSize : Nat) (data : List Nat)
  | programEeprom (eepromSize : Nat) (data : List Nat)
  | programIdFuses (coreBits : Nat) (picId : List Nat) (fuses : List Nat)
  | programCalibration
  | readRom (romSize : Nat)
  | readEeprom (eepromSize : Nat)
  | readConfig
  | eraseChip

/-- Run a voltage-using command, discarding its value. -/
def runVppCommand : VppCommand → M Unit
  | .programRom r d => programRom r d
  | .programEeprom e d => programEeprom e d
  | .programIdFuses c i f => programIdFuses c i f >>= fun _ => M.pure ()
  | .programCalibration => programCalibration
  | .readRom r => readRom r >>= fun _ => M.pure ()
  | .readEeprom e => readEeprom e >>= fun _ => M.pure ()
  | .readConfig => readConfig >>= fun _ => M.pure ()
  | .eraseChip => eraseChip

/-- A computation that never records a jump exit: its events extend the
trace and none of them is `.cmdEnd`. -/
def NoEnd (m : M α) : Prop :=
  ∀ s t, ∃ r s' Δ, m s t = (r, s', t ++ Δ) ∧ Ev.cmdEnd ∉ Δ

/-- A computation that touches neither the script nor the trace. -/
def Inert (m : M α) : Prop := ∀ s t, ∃ r, m s t = (r, s, t)

/-- The claim C4 safety shape: whenever a run records a jump exit, the
voltages-off exchange completed immediately before it. -/
def VppSafe (m : M α) : Prop :=
  ∀ s t, Ev.cmdEnd ∉ t → Ev.cmdEnd ∈ (m s t).2.2 →
    ∃ pre, (m s t).2.2 = pre ++ [Ev.vppOff, Ev.cmdEnd]

/-! ## Theorems: chip-config codec (claim C9) -/

/-- C9: ChipConfig serialisation round-trip — for every 26-byte input `b`
(bytes below 256), `from_bytes` succeeds and `to_bytes` reproduces `b`
exactly, the fields being the little-endian 16-bit chip id, eight raw id
bytes, seven little-endian 16-bit fuse words and a little-endian 16-bit
calibration word. -/
theorem chipConfig_from_to_roundtrip (data : List Nat) (hlen : data.length = 26)
    (hb : ∀ b ∈ data, b < 256) :
    ∃ c, chipConfigFromBytes data = some c ∧ chipConfigToBytes c = data := by
  obtain ⟨b0, t0, rfl⟩ := List.exists_of_length_succ data hlen
  have h0 : t0.length = 25 := by simpa using hlen
  obtain ⟨b1, t1, rfl⟩ := List.exists_of_length_succ t0 h0
  have h1 : t1.length = 24 := by simpa using h0
  obtain ⟨b2, t2, rfl⟩ := List.exists_of_length_succ t1 h1
  have h2 : t2.length = 23 := by simpa using h1
  obtain ⟨b3, t3, rfl⟩ := List.exists_of_length_succ t2 h2
  have h3 : t3.length = 22 := by simpa using h2
  obtain ⟨b4, t4, rfl⟩ := List.exists_of_length_succ t3 h3
  have h4 : t4.length = 21 := by simpa using h3
  obtain ⟨b5, t5, rfl⟩ := List.exists_of_length_succ t4 h4
  have h5 : t5.length = 20 := by simpa using h4
  obtain ⟨b6, t6, rfl⟩ := List.exists_of_length_succ t5 h5
  have h6 : t6.length = 19 := by simpa using h5
  obtain ⟨b7, t7, rfl⟩ := List.exists_of_length_succ t6 h6
  have h7 : t7.length = 18 := by simpa using h6
  obtain ⟨b8, t8, rfl⟩ := List.exists_of_length_succ t7 h7
  have h8 : t8.length = 17 := by simpa using h7
  obtain ⟨b9, t9, rfl⟩ := List.exists_of_length_succ t8 h8
  have h9 : t9.length = 16 := by simpa using h8
  obtain ⟨b10, t10, rfl⟩ := List.exists_of_length_succ t9 h9
  have h10 : t10.length = 15 := by simpa using h9
  obtain ⟨b11, t11, rfl⟩ := List.exists_of_length_succ t10 h10
  have h11 : t11.length = 14 := by simpa using h10
  obtain ⟨b12, t12, rfl⟩ := List.exists_of_length_succ t11 h11
  have h12 : t12.length = 13 := by simpa using h11
  obtain ⟨b13, t13, rfl⟩ := List.exists_of_length_succ t12 h12
  have h13 : t13.length = 12 := by simpa using h12
  obtain ⟨b14, t14, rfl⟩ := List.exists_of_length_succ t13 h13
  have h14 : t14.length = 11 := by simpa using h13
  obtain ⟨b15, t15, rfl⟩ := List.exists_of_length_succ t14 h14
  have h15 : t15.length = 10 := by simpa using h14
  obtain ⟨b16, t16, rfl⟩ := List.exists_of_length_succ t15 h15
  have h16 : t16.length = 9 := by simpa using h15
  obtain ⟨b17, t17, rfl⟩ := List.exists_of_length_succ t16 h16
  have h17 : t17.length = 8 := by simpa using h16
  obtain ⟨b18, t18, rfl⟩ := List.exists_of_length_succ t17 h17
  have h18 : t18.length = 7 := by simpa using h17
  obtain ⟨b19, t19, rfl⟩ := List.exists_of_length_succ t18 h18
  have h19 : t19.length = 6 := by simpa using h18
  obtain ⟨b20, t20, rfl⟩ := List.exists_of_length_succ t19 h19
  have h20 : t20.length = 5 := by simpa using h19
  obtain ⟨b21, t21, rfl⟩ := List.exists_of_length_succ t20 h20
  have h21 : t21.length = 4 := by simpa using h20
  obtain ⟨b22, t22, rfl⟩ := List.exists_of_length_succ t21 h21
  have h22 : t22.length = 3 := by simpa using h21
  obtain ⟨b23, t23, rfl⟩ := List.exists_of_length_succ t22 h22
  have h23 : t23.length = 2 := by simpa using h22
  obtain ⟨b24, t24, rfl⟩ := List.exists_of_length_succ t23 h23
  have h24 : t24.length = 1 := by simpa using h23
  obtain ⟨b25, t25, rfl⟩ := List.exists_of_length_succ t24 h24
  have h25 : t25.length = 0 := by simpa using h24
  obtain rfl : t25 = [] := List.length_eq_zero.mp h25
  simp only [List.mem_cons, List.not_mem_nil, or_false, forall_eq_or_imp, forall_eq] at hb
  refine ⟨_, rfl, ?_⟩
  simp only [chipConfigToBytes, List.getD_cons_zero, List.getD_cons_succ, List.getD,
    List.get?_cons_zero, List.get?_cons_succ, Option.getD_some,
    List.drop_succ_cons, List.drop_zero, List.take_succ_cons,
    List.take_zero, List.cons_append, List.nil_append, List.cons.injEq, and_true, true_and]
  omega

/-- C9 witness: the round-trip at a concrete 26-byte block. -/
theorem chipConfig_from_to_roundtrip_witness :
    ∃ c, chipConfigFromBytes
        [0x34, 0x12, 1, 2, 3, 4, 5, 6, 7, 8,
         0xff, 0x3f, 0xaa, 0x00, 1, 0, 2, 0, 3, 0, 4, 0, 5, 0, 0x80, 0x34] = some c ∧
      chipConfigToBytes c =
        [0x34, 0x12, 1, 2, 3, 4, 5, 6, 7, 8,
         0xff, 0x3f, 0xaa, 0x00, 1, 0, 2, 0, 3, 0, 4, 0, 5, 0, 0x80, 0x34] :=
  chipConfig_from_to_roundtrip _ (by decide) (by decide)

/-! ## Theorems: core bit width (claim C3) -/

/-- C3: `get_core_bits` returns `None` — not a bit width — for the numeric
core types 13 (named `bit16_c`), 12 (`bit14_h`) and 11 (`bit12_b`)
declared in the same file's `core_type_dict`, while the spec's mapping
(`{1,2,13} → 16`, `{3,5..10,12} → 14`, `{4,11} → 12`) expects 16, 14 and
12 there; the other documented codes are handled as claimed. -/
theorem getCoreBits_missing_core_types :
    getCoreBits 13 = none ∧ getCoreBits 12 = none ∧ getCoreBits 11 = none ∧
    getCoreBits 1 = some 16 ∧ getCoreBits 2 = some 16 ∧
    getCoreBits 3 = some 14 ∧ getCoreBits 5 = some 14 ∧ getCoreBits 6 = some 14 ∧
    getCoreBits 7 = some 14 ∧ getCoreBits 8 = some 14 ∧ getCoreBits 9 = some 14 ∧
    getCoreBits 10 = some 14 ∧ getCoreBits 4 = some 12 ∧
    getCoreBits 14 = none ∧
    coreTypeDict.lookup "bit16_c" = some (some 13) ∧
    coreTypeDict.lookup "bit14_h" = some (some 12) ∧
    coreTypeDict.lookup "bit12_b" = some (some 11) := by
  decide

/-! ## Theorems: hex record dispatch (claim C2) -/

/-- C2: the record-type dispatch sets the extension address to
`word << 16` for a type-2 record and to `word << 4` for a type-4 record —
the transpose of the claimed (and Intel-HEX standard) assignment of
`word << 4` to type 2 (extended segment) and `word << 16` to type 4
(extended linear); record types other than 0, 1, 2, 4 do raise
`InvalidRecordError` as claimed. -/
theorem processRecordType_swapped_shifts :
    processRecordType 2 0 [0x12, 0x34] 0 = .ok (.setExt (0x1234 <<< 16)) ∧
    processRecordType 4 0 [0x12, 0x34] 0 = .ok (.setExt (0x1234 <<< 4)) ∧
    (0x1234 <<< 16 : Nat) = 0x12340000 ∧ (0x1234 <<< 4 : Nat) = 0x12340 ∧
    (0x1234 <<< 16 : Nat) ≠ 0x1234 <<< 4 ∧
    processRecordType 3 0 [0x12, 0x34] 0 = .error .invalidRecordError ∧
    processRecordType 5 0 [] 0 = .error .invalidRecordError ∧
    processRecordType 0 4 [0xaa] 0x10000 = .ok (.data 0x10004 [0xaa]) ∧
    processRecordType 1 0 [] 0 = .ok .eof :=
  ⟨rfl, rfl, by decide, by decide, by decide, rfl, rfl, rfl, rfl⟩

/-! ## Theorems: `rom_is_blank` (claim C5) -/

/-- When the progress-byte allowance is positive, leading `'B'` bytes are
skipped without bound: the counter is never decremented. -/
theorem romIsBlankGo_skip_b (e : Int) (he : 0 < e) (n : Nat) (s : List Nat) :
    romIsBlankGo e (List.replicate n 0x42 ++ s) = romIsBlankGo e s := by
  induction n with
  | zero => rfl
  | succ n ih =>
    rw [List.replicate_succ, List.cons_append]
    show romIsBlankGo e (0x42 :: (List.replicate n 0x42 ++ s)) = _
    simp only [romIsBlankGo]
    norm_num
    rw [if_neg (by omega)]
    exact ih

/-- C5 counterexample: for `rom_size = 512` the claimed allowance is
`512/256 - 1 = 1` interim `'B'` bytes, yet after three `'B'` bytes the
code still accepts the final `'Y'` and returns `True` instead of raising
`InvalidResponseError`. -/
theorem romIsBlank_counterexample :
    ((512 : Int) / 256 - 1 = 1) ∧
    romIsBlank 512 [0x42, 0x42, 0x42, 0x59] = .ok true := by
  constructor
  · decide
  · simp [romIsBlank, romIsBlankGo]

/-- C5 amended: `rom_is_blank` returns `True` on `'Y'`, `False` on `'N'`
or `'C'`, and raises `InvalidResponseError` on any other byte (or a read
timeout); interim `'B'` bytes raise immediately when
`rom_size/256 - 1 ≤ 0` (that is, `rom_size < 512`) and are otherwise
tolerated in any number, because the counter is never decremented. -/
theorem romIsBlank_behaviour (romSize n : Nat) (rest : List Nat) :
    (512 ≤ romSize →
      romIsBlank romSize (List.replicate n 0x42 ++ 0x59 :: rest) = .ok true ∧
      romIsBlank romSize (List.replicate n 0x42 ++ 0x4e :: rest) = .ok false ∧
      romIsBlank romSize (List.replicate n 0x42 ++ 0x43 :: rest) = .ok false ∧
      (∀ b, b ≠ 0x59 → b ≠ 0x4e → b ≠ 0x43 → b ≠ 0x42 →
        romIsBlank romSize (List.replicate n 0x42 ++ b :: rest) =
          .error .invalidResponseError)) ∧
    (romSize < 512 →
      romIsBlank romSize (0x42 :: rest) = .error .invalidResponseError) := by
  constructor
  · intro h512
    have he : 0 < (romSize : Int) / 256 - 1 := by omega
    unfold romIsBlank
    rw [romIsBlankGo_skip_b _ he, romIsBlankGo_skip_b _ he, romIsBlankGo_skip_b _ he]
    refine ⟨by simp [romIsBlankGo], by simp [romIsBlankGo], by simp [romIsBlankGo], ?_⟩
    intro b hY hN hC hB
    rw [romIsBlankGo_skip_b _ he]
    simp [romIsBlankGo, hY, hN, hC, hB]
  · intro h512
    have he : (romSize : Int) / 256 - 1 ≤ 0 := by omega
    simp [romIsBlank, romIsBlankGo, he]

/-- C5 witness: a run with three tolerated `'B'` bytes ends in `True`. -/
theorem romIsBlank_behaviour_witness :
    romIsBlank 1024 (List.replicate 3 0x42 ++ 0x59 :: []) = .ok true :=
  ((romIsBlank_behaviour 1024 3 []).1 (by norm_num)).1

/-! ## Theorems: endianness detection (claim C6) -/

/-- On an even-length buffer, the words the scan examines are exactly the
buffer minus its final word. -/
theorem exceptLastWord_eq_take :
    ∀ rom : List Nat, rom.length % 2 = 0 →
      exceptLastWord rom = rom.take (rom.length - 2)
  | [], _ => rfl
  | [_], h => by simp only [List.length_cons, List.length_nil] at h; omega
  | [_, _], _ => rfl
  | [_, _, _], h => by simp only [List.length_cons, List.length_nil] at h; omega
  | b0 :: b1 :: r0 :: r1 :: rest2, h => by
    have hr : (r0 :: r1 :: rest2).length % 2 = 0 := by
      simp only [List.length_cons] at h ⊢; omega
    have ih := exceptLastWord_eq_take (r0 :: r1 :: rest2) hr
    show exceptLastWord (b0 :: b1 :: (r0 :: r1 :: rest2)) = _
    rw [exceptLastWord]
    simp only [List.isEmpty_cons, if_false, Bool.false_eq_true]
    rw [ih]
    simp only [List.length_cons]
    have h2 : rest2.length + 1 + 1 + 1 + 1 - 2 = rest2.length + 1 + 1 := by omega
    have h3 : rest2.length + 1 + 1 - 2 = rest2.length := by omega
    rw [h2, h3, List.take_succ_cons, List.take_succ_cons]

/-- The scan loop agrees with the spec-style scan run on all words but
the last, defaulting to big-endian when no examined word decides. -/
theorem isLittleEndianGo_eq_spec (blank : Nat) :
    ∀ rom : List Nat,
      isLittleEndianGo blank rom =
        (specEndiannessScan blank (exceptLastWord rom)).map (fun r => r.getD false)
  | [] => rfl
  | [_] => rfl
  | b0 :: b1 :: rest => by
    by_cases hre : rest.isEmpty
    · have : rest = [] := by simpa [List.isEmpty_iff] using hre
      subst this
      rfl
    · have ih := isLittleEndianGo_eq_spec blank rest
      rw [isLittleEndianGo, exceptLastWord]
      simp only [hre, if_false, Bool.false_eq_true]
      rw [specEndiannessScan]
      split_ifs with hcond1 hcond2 hcond3
      · rfl
      · rfl
      · rfl
      · exact ih

/-- C6 counterexample: a 16-word 14-bit ROM whose first 15 words satisfy
both `be_ok` and `le_ok` (skipped) and whose final word satisfies `le_ok`
only.  By the claim the final word must decide little-endian, but the
code never examines the last word and returns big-endian. -/
theorem isLittleEndian_counterexample :
    isLittleEndian 14 0x3fff ((List.replicate 15 [0x3f, 0x3f]).flatten ++ [0xff, 0x28]) =
      .ok false ∧
    specEndiannessScan 0x3fff ((List.replicate 15 [0x3f, 0x3f]).flatten ++ [0xff, 0x28]) =
      .ok (some true) :=
  ⟨rfl, rfl⟩

/-- C6 amended: 16-bit cores are fixed little-endian without scanning;
otherwise the detector runs the claimed first-decisive-word scan on every
word except the buffer's last (the `(x + 2) < size` guard skips the final
word), and treats an undecided scan as big-endian. -/
theorem isLittleEndian_scan_skips_last_word (coreBits blank : Nat) (rom : List Nat) :
    isLittleEndian coreBits blank rom =
      if coreBits = 16 then .ok true
      else (specEndiannessScan blank (exceptLastWord rom)).map (fun r => r.getD false) := by
  unfold isLittleEndian
  split_ifs with h
  · rfl
  · exact isLittleEndianGo_eq_spec blank rom

/-! ## Theorems: blank image (claim C7) -/

set_option maxRecDepth 100000 in
/-- C7: building a `FlashData` image from an empty hex file for a 14-bit
chip (`rom_size = 16`, `eeprom_size = 8`, `fuse_blank = [0x3FFF]`) yields
a ROM buffer of big-endian blank words, an all-0xFF EEPROM and an
all-0x00 4-byte ID as claimed, but `fuse_data` is `[0xFF3F]` — the
byte-swap of `fuse_blank` — not `fuse_blank`: the fuse padding is packed
big-endian and then byte-swapped by the little-endian swap that a blank
(little-endian-padded) ROM buffer always triggers. -/
theorem blankImage_fuse_data_swapped :
    (mkFlashData 14 16 8 [0x3fff] false none none [] emptyHex).map rom_data =
      .ok ((List.replicate 16 [0x3f, 0xff]).flatten) ∧
    (mkFlashData 14 16 8 [0x3fff] false none none [] emptyHex).map
        (fun fd => unpackBE16 (rom_data fd)) = .ok (List.replicate 16 0x3fff) ∧
    (mkFlashData 14 16 8 [0x3fff] false none none [] emptyHex).map eeprom_data =
      .ok (List.replicate 8 0xff) ∧
    (mkFlashData 14 16 8 [0x3fff] false none none [] emptyHex).map id_data =
      .ok (some [0x00, 0x00, 0x00, 0x00]) ∧
    ((mkFlashData 14 16 8 [0x3fff] false none none [] emptyHex).bind fuse_data) =
      .ok [0xff3f] ∧
    (0xff3f : Nat) ≠ 0x3fff :=
  ⟨rfl, rfl, rfl, rfl, rfl, by decide⟩

/-! ## Theorems: id_data length (claim C8) -/

set_option maxRecDepth 100000 in
/-- C8 counterexample: a `FlashData` image constructed with the explicit
`pic_id` hex string `"ff"` on a 14-bit chip returns a 1-byte `id_data`,
not the 4 bytes the claim promises — the explicit-id path performs no
length check. -/
theorem id_data_picid_unchecked :
    (mkFlashData 14 16 8 [0x3fff] false (some "ff") none [] emptyHex).map id_data =
      .ok (some [0xff]) ∧
    ([0xff] : List Nat).length = 1 ∧ (1 : Nat) ≠ 4 :=
  ⟨rfl, rfl, by decide⟩

/-- C8 amended: when no truthy explicit `pic_id` is supplied and the
source buffer (the user-ID buffer when present, the config buffer
otherwise) holds at least 8 bytes, `id_data` returns exactly 8 bytes on
16-bit cores and exactly 4 bytes — every second byte at offset 1 — on
12/14-bit cores; an explicit `pic_id` is hex-decoded and returned at
whatever length was given. -/
theorem id_data_extract_length (fd : FlashData)
    (hpic : fd.picId = none ∨ fd.picId = some "")
    (hsrc : 8 ≤ (match fd.idBuffer with
      | some b => b.data.length
      | none => fd.configBuffer.data.length)) :
    ∃ l, id_data fd = some l ∧ l.length = if fd.coreBits == 16 then 8 else 4 := by
  have hext : ∀ idBytes : List Nat, idBytes.length = 8 →
      (if fd.coreBits == 16 then some idBytes
       else if 8 ≤ idBytes.length then
         some [idBytes.getD 1 0, idBytes.getD 3 0, idBytes.getD 5 0, idBytes.getD 7 0]
       else none) =
        some (if fd.coreBits == 16 then idBytes
          else [idBytes.getD 1 0, idBytes.getD 3 0, idBytes.getD 5 0, idBytes.getD 7 0]) := by
    intro idBytes hlen
    by_cases hcb : fd.coreBits == 16 <;> simp [hcb, hlen]
  unfold id_data
  rcases hib : fd.idBuffer with _ | b
  · rw [hib] at hsrc
    simp only at hsrc
    have hlen : (fd.configBuffer.data.take 8).length = 8 := by
      simp [List.length_take]; omega
    rcases hpic with h | h <;> rw [h] <;> simp only [hib] <;> rw [hext _ hlen] <;>
      refine ⟨_, rfl, ?_⟩ <;> by_cases hcb : fd.coreBits == 16 <;> simp [hcb, hlen]
  · rw [hib] at hsrc
    simp only at hsrc
    have hlen : (b.data.take 8).length = 8 := by
      simp [List.length_take]; omega
    rcases hpic with h | h <;> rw [h] <;> simp only [hib] <;> rw [hext _ hlen] <;>
      refine ⟨_, rfl, ?_⟩ <;> by_cases hcb : fd.coreBits == 16 <;> simp [hcb, hlen]

/-- C8 witness: the amended length law at the concrete 14-bit state. -/
theorem id_data_extract_length_witness :
    ∃ l, id_data fdIdWitness = some l ∧
      l.length = if fdIdWitness.coreBits == 16 then 8 else 4 :=
  id_data_extract_length fdIdWitness (Or.inl rfl) (by decide)

/-! ## Theorems: calibration-word guard (claim C10) -/

/-- C10: when the chip has no calibration word, `set_calibration_word`
raises `ValueError` and `rom_data` stays the unpatched ROM buffer; when it
does and a two-byte word has been stored, `rom_data` is the built buffer
with exactly its last two bytes replaced by the word — same length, same
prefix, new final two bytes. -/
theorem set_calibration_word_frame (fd : FlashData) (w : List Nat) :
    (fd.calWord = false →
      set_calibration_word fd (some w) = .error .valueError ∧
      rom_data fd = fd.romBuffer.data) ∧
    (fd.calWord = true → w.length = 2 →
      fd.romBuffer.size = fd.romBuffer.data.length → 2 ≤ fd.romBuffer.size →
      ∃ fd', set_calibration_word fd (some w) = .ok fd' ∧
        rom_data fd' = fd.romBuffer.data.take (fd.romBuffer.size - 2) ++ w ∧
        (rom_data fd').length = fd.romBuffer.data.length ∧
        (rom_data fd').take (fd.romBuffer.size - 2) =
          fd.romBuffer.data.take (fd.romBuffer.size - 2) ∧
        (rom_data fd').drop (fd.romBuffer.size - 2) = w) := by
  constructor
  · intro h
    refine ⟨by simp [set_calibration_word, h], ?_⟩
    unfold rom_data
    rcases fd.calibrationWord with _ | w' <;> simp [h]
  · intro hcal hw hsz h2
    have hne : w ≠ [] := by
      intro he; rw [he] at hw; simp at hw
    refine ⟨{ fd with calibrationWord := some w }, by simp [set_calibration_word, hcal], ?_, ?_, ?_, ?_⟩
    · unfold rom_data
      simp [hne, hcal]
    · unfold rom_data
      simp only [hne, hcal, ne_eq, not_false_iff, and_self, if_true, List.length_append,
        List.length_take, hw]
      omega
    · unfold rom_data
      simp only [hne, hcal, ne_eq, not_false_iff, and_self, if_true]
      rw [List.take_append_eq_append_take]
      have hlt : (fd.romBuffer.data.take (fd.romBuffer.size - 2)).length =
          fd.romBuffer.size - 2 := by
        simp [List.length_take]; omega
      rw [List.take_of_length_le (by omega), hlt]
      simp
    · unfold rom_data
      simp only [hne, hcal, ne_eq, not_false_iff, and_self, if_true]
      rw [List.drop_append_eq_append_drop]
      have hlt : (fd.romBuffer.data.take (fd.romBuffer.size - 2)).length =
          fd.romBuffer.size - 2 := by
        simp [List.length_take]; omega
      rw [List.drop_of_length_le (by omega), hlt]
      simp

/-- C10 witness: patching `[0xAB, 0xCD]` into the concrete 4-byte ROM. -/
theorem set_calibration_word_frame_witness :
    ∃ fd', set_calibration_word fdCalWitness (some [0xab, 0xcd]) = .ok fd' ∧
      rom_data fd' = fdCalWitness.romBuffer.data.take (fdCalWitness.romBuffer.size - 2) ++
        [0xab, 0xcd] ∧
      (rom_data fd').length = fdCalWitness.romBuffer.data.length ∧
      (rom_data fd').take (fdCalWitness.romBuffer.size - 2) =
        fdCalWitness.romBuffer.data.take (fdCalWitness.romBuffer.size - 2) ∧
      (rom_data fd').drop (fdCalWitness.romBuffer.size - 2) = [0xab, 0xcd] :=
  (set_calibration_word_frame fdCalWitness [0xab, 0xcd]).2 rfl (by decide) rfl (by decide)

/-! ## Theorems: Vpp discipline (claim C4) -/

/-- `>>=` on `M` is `M.bind`. -/
theorem M_bind_eq (m : M α) (k : α → M β) : (m >>= k) = M.bind m k := rfl

/-- Sequencing two jump-exit-free computations is jump-exit-free. -/
theorem noEnd_bind {m : M α} {k : α → M β} (hm : NoEnd m) (hk : ∀ a, NoEnd (k a)) :
    NoEnd (m >>= k) := by
  intro s t
  obtain ⟨r, s', Δ, heq, hΔ⟩ := hm s t
  rw [M_bind_eq]
  unfold M.bind
  rw [heq]
  cases r with
  | none => exact ⟨none, s', Δ, rfl, hΔ⟩
  | some a =>
    obtain ⟨r2, s2, Δ2, heq2, hΔ2⟩ := hk a s' (t ++ Δ)
    refine ⟨r2, s2, Δ ++ Δ2, ?_, ?_⟩
    · show k a s' (t ++ Δ) = (r2, s2, t ++ (Δ ++ Δ2))
      rw [heq2, List.append_assoc]
    · intro h
      rcases List.mem_append.mp h with h | h
      · exact hΔ h
      · exact hΔ2 h

theorem noEnd_pure (a : α) : NoEnd (M.pure a) := by
  intro s t; exact ⟨some a, s, [], by simp [M.pure], by simp⟩

theorem noEnd_fail : NoEnd (M.fail : M α) := by
  intro s t; exact ⟨none, s, [], by simp [M.fail], by simp⟩

theorem noEnd_readOpt : NoEnd readOpt := by
  intro s t
  cases s with
  | nil => exact ⟨some none, [], [], by simp [Picpro.readOpt], by simp⟩
  | cons b rest => exact ⟨some (some b), rest, [], by simp [Picpro.readOpt], by simp⟩

theorem noEnd_readN (n : Nat) : NoEnd (readN n) := by
  intro s t; exact ⟨some (s.take n), s.drop n, [], by simp [Picpro.readN], by simp⟩

theorem noEnd_writeBytes (bs : List Nat) : NoEnd (writeBytes bs) := noEnd_pure ()

theorem noEnd_emit {e : Ev} (he : e ≠ Ev.cmdEnd) : NoEnd (emit e) := by
  intro s t
  refine ⟨some (), s, [e], by simp [Picpro.emit], ?_⟩
  intro h
  simp only [List.mem_singleton] at h
  exact he h.symm

theorem noEnd_ite (c : Prop) [Decidable c] {m1 m2 : M α}
    (h1 : NoEnd m1) (h2 : NoEnd m2) : NoEnd (if c then m1 else m2) := by
  split <;> assumption

theorem noEnd_expectByte (e : Nat) : NoEnd (expectByte e) :=
  noEnd_bind noEnd_readOpt fun _ => noEnd_ite _ (noEnd_pure _) noEnd_fail

theorem noEnd_commandStart (cmd : Option Nat) : NoEnd (commandStart cmd) := by
  unfold Picpro.commandStart
  exact noEnd_bind (noEnd_writeBytes _) fun _ =>
    noEnd_bind (noEnd_expectByte _) fun _ =>
    noEnd_bind (noEnd_writeBytes _) fun _ =>
    noEnd_bind noEnd_readOpt fun ack =>
    noEnd_ite _
      (noEnd_bind (noEnd_writeBytes _) fun _ => noEnd_emit (by decide))
      noEnd_fail

theorem noEnd_setVpp (b : Bool) : NoEnd (setProgrammingVoltages b) := by
  unfold setProgrammingVoltages
  refine noEnd_ite _ ?_ ?_ <;>
    exact noEnd_bind (noEnd_writeBytes _) fun _ =>
      noEnd_bind (noEnd_expectByte _) fun _ => noEnd_emit (by decide)

theorem noEnd_onFlush {m : M α} (hm : NoEnd m) : NoEnd (onInvalidResponseFlush m) := by
  intro s t
  obtain ⟨r, s', Δ, heq, hΔ⟩ := hm s t
  unfold onInvalidResponseFlush
  rw [heq]
  cases r with
  | none =>
    refine ⟨none, s', Δ ++ [Ev.flush], by simp, ?_⟩
    intro h
    rcases List.mem_append.mp h with h | h
    · exact hΔ h
    · simp at h
  | some a => exact ⟨some a, s', Δ, rfl, hΔ⟩

theorem noEnd_romChunks (n : Nat) : NoEnd (programRomChunks n) := by
  induction n with
  | zero => exact noEnd_pure ()
  | succ n ih =>
    unfold programRomChunks
    exact noEnd_bind (noEnd_writeBytes _) fun _ =>
      noEnd_bind (noEnd_expectByte _) fun _ => ih

theorem noEnd_eepromChunks (n : Nat) : NoEnd (programEepromChunks n) := by
  induction n with
  | zero => exact noEnd_pure ()
  | succ n ih =>
    unfold programEepromChunks
    exact noEnd_bind (noEnd_writeBytes _) fun _ =>
      noEnd_bind (noEnd_expectByte _) fun _ => ih

theorem inert_pure (a : α) : Inert (M.pure a) := fun s t => ⟨some a, rfl⟩

theorem inert_fail : Inert (M.fail : M α) := fun s t => ⟨none, rfl⟩

theorem inert_ite (c : Prop) [Decidable c] {m1 m2 : M α}
    (h1 : Inert m1) (h2 : Inert m2) : Inert (if c then m1 else m2) := by
  split <;> assumption

/-- A failing computation leaves a `VppSafe` obligation vacuous. -/
theorem vppSafe_fail : VppSafe (M.fail : M α) := fun _ t ht hm => absurd hm ht

theorem vppSafe_ite (c : Prop) [Decidable c] {m1 m2 : M α}
    (h1 : VppSafe m1) (h2 : VppSafe m2) : VppSafe (if c then m1 else m2) := by
  split <;> assumption

/-- Prefixing a jump-exit-free computation preserves `VppSafe`. -/
theorem vppSafe_bind {m : M α} {k : α → M β} (hm : NoEnd m)
    (hk : ∀ a, VppSafe (k a)) : VppSafe (m >>= k) := by
  intro s t ht hmem
  obtain ⟨r, s', Δ, heq, hΔ⟩ := hm s t
  rw [M_bind_eq] at hmem ⊢
  unfold M.bind at hmem ⊢
  rw [heq] at hmem ⊢
  have hnotin : Ev.cmdEnd ∉ t ++ Δ := by
    intro h
    rcases List.mem_append.mp h with h | h
    · exact ht h
    · exact hΔ h
  cases r with
  | none => exact absurd hmem hnotin
  | some a => exact hk a s' (t ++ Δ) hnotin hmem

/-- Appending a script- and trace-inert step preserves `VppSafe`. -/
theorem vppSafe_bindInert {m : M α} {k : α → M β} (hm : VppSafe m)
    (hk : ∀ a, Inert (k a)) : VppSafe (m >>= k) := by
  intro s t ht hmem
  rw [M_bind_eq] at hmem ⊢
  unfold M.bind at hmem ⊢
  obtain ⟨r, s', t', hres⟩ : ∃ r s' t', m s t = (r, s', t') := ⟨_, _, _, rfl⟩
  rw [hres] at hmem ⊢
  have hshape := hm s t ht
  rw [hres] at hshape
  cases r with
  | none => exact hshape hmem
  | some a =>
    have hmem' : Ev.cmdEnd ∈ (k a s' t').2.2 := hmem
    show ∃ pre, (k a s' t').2.2 = pre ++ [Ev.vppOff, Ev.cmdEnd]
    obtain ⟨r2, hk_eq⟩ := hk a s' t'
    rw [hk_eq] at hmem' ⊢
    exact hshape hmem'

/-- The tail common to every voltage-using command: the voltages-off
exchange, then the jump exit, then an inert epilogue — on any run that
records the jump exit, the trace ends `[.vppOff, .cmdEnd]`. -/
theorem vppSafe_offEndTail (tail : Unit → M γ) (htail : ∀ b, Inert (tail b)) :
    VppSafe (setProgrammingVoltages false >>= fun _ =>
      commandEnd >>= fun b => tail b) := by
  intro s t ht hmem
  rcases s with _ | ⟨b, s1⟩
  · simp only [M_bind_eq, M.bind, setProgrammingVoltages, expectByte, Picpro.readOpt,
      writeBytes, M.pure, M.fail, Picpro.emit, if_false, Bool.false_eq_true,
      reduceCtorEq, if_neg, Option.some.injEq, reduceIte] at hmem
    exact absurd hmem ht
  · by_cases hb : b = 0x76
    · subst hb
      rcases s1 with _ | ⟨b2, s2⟩
      · simp only [M_bind_eq, M.bind, setProgrammingVoltages, commandEnd, expectByte,
          Picpro.readOpt, writeBytes, M.pure, M.fail, Picpro.emit, Bool.false_eq_true,
          if_false, reduceIte, Option.some.injEq, reduceCtorEq, if_neg] at hmem
        rcases List.mem_append.mp hmem with h | h
        · exact absurd h ht
        · simp at h
      · by_cases hb2 : b2 = 0x51
        · subst hb2
          obtain ⟨r2, htl⟩ := htail () s2 ((t ++ [Ev.vppOff]) ++ [Ev.cmdEnd])
          refine ⟨t, ?_⟩
          simp only [M_bind_eq, M.bind, setProgrammingVoltages, commandEnd, expectByte,
            Picpro.readOpt, writeBytes, M.pure, M.fail, Picpro.emit, Bool.false_eq_true,
            if_false, reduceIte, Option.some.injEq, reduceCtorEq] at hmem ⊢
          rw [htl]
          simp
        · simp only [M_bind_eq, M.bind, setProgrammingVoltages, commandEnd, expectByte,
            Picpro.readOpt, writeBytes, M.pure, M.fail, Picpro.emit, Bool.false_eq_true,
            if_false, reduceIte, Option.some.injEq, hb2, if_neg, reduceCtorEq] at hmem
          rcases List.mem_append.mp hmem with h | h
          · exact absurd h ht
          · simp at h
    · simp only [M_bind_eq, M.bind, setProgrammingVoltages, expectByte, Picpro.readOpt,
        writeBytes, M.pure, M.fail, Picpro.emit, Bool.false_eq_true, if_false,
        reduceIte, Option.some.injEq, hb, if_neg, reduceCtorEq] at hmem
      exact absurd hmem ht

/-- `VppSafe` transfers across pointwise-equal computations. -/
theorem vppSafe_congr {m m' : M α} (h : ∀ s t, m s t = m' s t) (hm : VppSafe m) :
    VppSafe m' := by
  intro s t ht hmem
  rw [← h s t] at hmem ⊢
  exact hm s t ht hmem

/-- Variant of the tail lemma for commands whose text ends at
`command_end` itself. -/
theorem vppSafe_offEnd : VppSafe (setProgrammingVoltages false >>= fun _ => commandEnd) := by
  refine vppSafe_congr ?_ (vppSafe_offEndTail (fun b : Unit => M.pure b) fun _ => inert_pure _)
  intro s t
  simp only [M_bind_eq, M.bind]
  obtain ⟨r, s', t', hsv⟩ :
      ∃ r s' t', setProgrammingVoltages false s t = (r, s', t') := ⟨_, _, _, rfl⟩
  rw [hsv]
  cases r with
  | none => rfl
  | some a =>
    show M.bind commandEnd (fun b => M.pure b) s' t' = commandEnd s' t'
    unfold M.bind
    obtain ⟨r2, s2, t2, hce⟩ : ∃ r2 s2 t2, commandEnd s' t' = (r2, s2, t2) :=
      ⟨_, _, _, rfl⟩
    rw [hce]
    cases r2 <;> rfl

theorem vppSafe_programRom (romSize : Nat) (data : List Nat) :
    VppSafe (programRom romSize data) := by
  unfold Picpro.programRom
  refine vppSafe_ite _ vppSafe_fail (vppSafe_ite _ vppSafe_fail ?_)
  exact vppSafe_bind (noEnd_commandStart _) fun _ =>
    vppSafe_bind (noEnd_setVpp _) fun _ =>
    vppSafe_bind (noEnd_writeBytes _) fun _ =>
    vppSafe_bind (noEnd_writeBytes _) fun _ =>
    vppSafe_bind (noEnd_expectByte _) fun _ =>
    vppSafe_bind (noEnd_onFlush
      (noEnd_bind (noEnd_romChunks _) fun _ => noEnd_expectByte _)) fun _ =>
    vppSafe_offEnd

theorem vppSafe_programEeprom (eepromSize : Nat) (data : List Nat) :
    VppSafe (programEeprom eepromSize data) := by
  unfold Picpro.programEeprom
  refine vppSafe_ite _ vppSafe_fail (vppSafe_ite _ vppSafe_fail ?_)
  exact vppSafe_bind (noEnd_commandStart _) fun _ =>
    vppSafe_bind (noEnd_setVpp _) fun _ =>
    vppSafe_bind (noEnd_writeBytes _) fun _ =>
    vppSafe_bind (noEnd_writeBytes _) fun _ =>
    vppSafe_bind (noEnd_expectByte _) fun _ =>
    vppSafe_bind (noEnd_eepromChunks _) fun _ =>
    vppSafe_bind (noEnd_writeBytes _) fun _ =>
    vppSafe_bind (noEnd_expectByte _) fun _ =>
    vppSafe_offEnd

theorem vppSafe_programIdFuses (coreBits : Nat) (picId fuses : List Nat) :
    VppSafe (programIdFuses coreBits picId fuses) := by
  unfold Picpro.programIdFuses
  refine vppSafe_bind ?_ fun _ => ?_
  · unfold programIdFusesGuard
    refine noEnd_ite _ ?_ ?_ <;>
      exact noEnd_ite _ noEnd_fail (noEnd_ite _ noEnd_fail (noEnd_pure _))
  · exact vppSafe_bind (noEnd_commandStart _) fun _ =>
      vppSafe_bind (noEnd_setVpp _) fun _ =>
      vppSafe_bind (noEnd_writeBytes _) fun _ =>
      vppSafe_bind (noEnd_writeBytes _) fun _ =>
      vppSafe_bind noEnd_readOpt fun response =>
      vppSafe_offEndTail _ fun _ => inert_ite _ (inert_pure _) inert_fail

theorem vppSafe_programCalibration : VppSafe programCalibration := by
  unfold Picpro.programCalibration
  exact vppSafe_bind (noEnd_commandStart _) fun _ =>
    vppSafe_bind (noEnd_setVpp _) fun _ =>
    vppSafe_bind (noEnd_writeBytes _) fun _ =>
    vppSafe_bind (noEnd_writeBytes _) fun _ =>
    vppSafe_bind noEnd_readOpt fun response =>
    vppSafe_offEndTail _ fun _ => inert_ite _ (inert_pure _) inert_fail

theorem vppSafe_readRom (romSize : Nat) : VppSafe (readRom romSize) := by
  unfold Picpro.readRom
  exact vppSafe_bind (noEnd_commandStart _) fun _ =>
    vppSafe_bind (noEnd_setVpp _) fun _ =>
    vppSafe_bind (noEnd_writeBytes _) fun _ =>
    vppSafe_bind (noEnd_readN _) fun response =>
    vppSafe_offEndTail _ fun _ => inert_pure _

theorem vppSafe_readEeprom (eepromSize : Nat) : VppSafe (readEeprom eepromSize) := by
  unfold Picpro.readEeprom
  exact vppSafe_bind (noEnd_commandStart _) fun _ =>
    vppSafe_bind (noEnd_setVpp _) fun _ =>
    vppSafe_bind (noEnd_writeBytes _) fun _ =>
    vppSafe_bind (noEnd_readN _) fun response =>
    vppSafe_offEndTail _ fun _ => inert_pure _

theorem vppSafe_readConfig : VppSafe readConfig := by
  unfold Picpro.readConfig
  exact vppSafe_bind (noEnd_commandStart _) fun _ =>
    vppSafe_bind (noEnd_setVpp _) fun _ =>
    vppSafe_bind (noEnd_writeBytes _) fun _ =>
    vppSafe_bind (noEnd_readN _) fun ack =>
    vppSafe_ite _ vppSafe_fail
      (vppSafe_bind (noEnd_readN _) fun response =>
        vppSafe_offEndTail _ fun _ => inert_pure _)

theorem vppSafe_eraseChip : VppSafe eraseChip := by
  unfold Picpro.eraseChip
  exact vppSafe_bind (noEnd_commandStart _) fun _ =>
    vppSafe_bind (noEnd_setVpp _) fun _ =>
    vppSafe_bind (noEnd_writeBytes _) fun _ =>
    vppSafe_bind (noEnd_readN _) fun response =>
    vppSafe_offEndTail _ fun _ => inert_ite _ (inert_pure _) inert_fail

/-- C4 counterexample: `program_rom` on a correct-size payload, against a
device that acknowledges the jump entry (`'Q'`, `'P'`) and the
voltages-on (`'V'`) but answers the word-count `'Y'` expectation with a
wrong byte: the command raises with the programming voltages still on —
the trace records `.vppOn`, no voltages-off exchange and no jump exit, so
the claimed on-every-exit-path discipline does not hold. -/
theorem programRom_fails_with_vpp_on :
    runVppCommand (.programRom 16 (List.replicate 32 0x00))
        [0x51, 0x50, 0x56, 0x00] [] =
      (none, [], [Ev.cmdStart, Ev.vppOn]) ∧
    Ev.vppOff ∉ [Ev.cmdStart, Ev.vppOn] ∧ Ev.cmdEnd ∉ [Ev.cmdStart, Ev.vppOn] :=
  ⟨rfl, by decide, by decide⟩

/-- C4 amended: for each of the eight voltage-using commands and every
device script, any run that ends the enclosing jump-table session (records
`.cmdEnd`) has completed the voltages-off exchange immediately before it —
the trace ends `[.vppOff, .cmdEnd]`.  Failing exits taken before the
voltages-off step (as in the counterexample) propagate the error without
turning the voltages off. -/
theorem vppOff_before_commandEnd (c : VppCommand) (script : List Nat)
    (hmem : Ev.cmdEnd ∈ (runVppCommand c script []).2.2) :
    ∃ pre, (runVppCommand c script []).2.2 = pre ++ [Ev.vppOff, Ev.cmdEnd] := by
  have hsafe : VppSafe (runVppCommand c) := by
    cases c with
    | programRom r d => exact vppSafe_programRom r d
    | programEeprom e d => exact vppSafe_programEeprom e d
    | programIdFuses cb i f =>
      exact vppSafe_bindInert (vppSafe_programIdFuses cb i f) fun _ => inert_pure _
    | programCalibration => exact vppSafe_programCalibration
    | readRom r => exact vppSafe_bindInert (vppSafe_readRom r) fun _ => inert_pure _
    | readEeprom e => exact vppSafe_bindInert (vppSafe_readEeprom e) fun _ => inert_pure _
    | readConfig => exact vppSafe_bindInert vppSafe_readConfig fun _ => inert_pure _
    | eraseChip => exact vppSafe_eraseChip
  exact hsafe script [] (by simp) hmem

/-- C4 witness: a successful `erase_chip` run — the trace ends with the
voltages-off exchange followed by the jump exit. -/
theorem vppOff_before_commandEnd_witness :
    ∃ pre, (runVppCommand .eraseChip [0x51, 0x50, 0x56, 0x59, 0x76, 0x51] []).2.2 =
      pre ++ [Ev.vppOff, Ev.cmdEnd] :=
  vppOff_before_commandEnd .eraseChip [0x51, 0x50, 0x56, 0x59, 0x76, 0x51] (by decide)

/-! ## Theorems: fuse codec round-trip (claim C1) -/

/-- A compatible setting that strictly lowers the state's best value is
recorded by one scan step. -/
theorem scanStep_improving (w : List Nat) (st : ScanState)
    (s : String × List (Nat × Nat))
    (hcomp : indexwiseAnd w s.2 = w)
    (hstrict : indexwiseAnd st.best s.2 ≠ st.best) :
    scanStep w st s = { best := indexwiseAnd st.best s.2, chosen := some s.1 } := by
  unfold scanStep
  rw [if_pos hcomp, if_pos hstrict]

/-- A setting that is incompatible, or compatible without lowering the
best value, leaves the scan state untouched. -/
theorem scanStep_noop (w : List Nat) (st : ScanState)
    (s : String × List (Nat × Nat))
    (h : indexwiseAnd w s.2 = w → indexwiseAnd st.best s.2 = st.best) :
    scanStep w st s = st := by
  unfold scanStep
  by_cases hc : indexwiseAnd w s.2 = w
  · rw [if_pos hc, if_neg (not_not_intro (h hc))]
  · rw [if_neg hc]

/-- A scan state whose best value no compatible remaining setting can
lower is left untouched by the rest of the scan. -/
theorem foldl_scanStep_stable (w B : List Nat) (cn : String) :
    ∀ suf : SettingList,
      (∀ t ∈ suf, indexwiseAnd w t.2 = w → indexwiseAnd B t.2 = B) →
      suf.foldl (scanStep w) { best := B, chosen := some cn } =
        { best := B, chosen := some cn }
  | [], _ => rfl
  | t :: rest, hstable => by
    rw [List.foldl_cons,
      scanStep_noop w { best := B, chosen := some cn } t (hstable t (by simp))]
    exact foldl_scanStep_stable w B cn rest fun t' ht' => hstable t' (by simp [ht'])

/-- The scan of one fuse's settings ends on the chosen setting when its
masks are compatible with the observed words, strictly lower the best
accumulated over the earlier settings, and no compatible later setting
lowers it further. -/
theorem scanFuse_wins (w : List Nat) (pre : SettingList)
    (c : String × List (Nat × Nat)) (suf : SettingList)
    (hcomp : indexwiseAnd w c.2 = w)
    (hstrict : indexwiseAnd (prefixBest w pre) c.2 ≠ prefixBest w pre)
    (hstable : ∀ t ∈ suf, indexwiseAnd w t.2 = w →
      indexwiseAnd (indexwiseAnd (prefixBest w pre) c.2) t.2 =
        indexwiseAnd (prefixBest w pre) c.2) :
    scanFuse w (pre ++ c :: suf) = some c.1 := by
  unfold prefixBest at hstrict hstable
  unfold scanFuse
  rw [List.foldl_append, List.foldl_cons,
    scanStep_improving w _ c hcomp hstrict,
    foldl_scanStep_stable w _ c.1 suf hstable]

/-- `decode_fuse_data` recovers the whole assignment when every fuse's
scan ends on its chosen setting. -/
theorem decodeFuseData_of_wins (w : List Nat) :
    ∀ fs : List FuseChoice, (∀ f ∈ fs, ScanWinsAt w f) →
      decodeFuseData (FuseChoice.table fs) w = .ok (FuseChoice.assignment fs)
  | [], _ => rfl
  | f :: rest, hwin => by
    obtain ⟨h1, h2, h3⟩ := hwin f (by simp)
    have hscan : scanFuse w f.settings = some f.chosenName := by
      unfold FuseChoice.settings
      exact scanFuse_wins w f.pre (f.chosenName, f.chosenMasks) f.suf h1 h2 h3
    show decodeFuseData ((f.fuseName, f.settings) :: FuseChoice.table rest) w =
      .ok ((f.fuseName, f.chosenName) :: FuseChoice.assignment rest)
    unfold decodeFuseData
    rw [hscan, decodeFuseData_of_wins w rest fun g hg => hwin g (by simp [hg])]

/-- C1 counterexample: a chip entry whose single fuse has two settings
with identical masks.  Encoding the fully specified assignment
`{F := B}` and decoding it back yields `{F := A}`: the scan records the
first strictly-improving compatible setting and a later setting with the
same mask never displaces it, so the round-trip law fails as stated. -/
theorem fuse_roundtrip_counterexample :
    encodeFuseData [0xffff] [("F", [("A", [(0, 0x00ff)]), ("B", [(0, 0x00ff)])])]
        [("F", "B")] = .ok [0x00ff] ∧
    decodeFuseData [("F", [("A", [(0, 0x00ff)]), ("B", [(0, 0x00ff)])])] [0x00ff] =
      .ok [("F", "A")] ∧
    ("A" : String) ≠ "B" :=
  ⟨rfl, rfl, by decide⟩

/-- C1 amended: `decode_fuse_data ∘ encode_fuse_data` is the identity on
a fully specified assignment provided each fuse's chosen setting wins its
scan on the encoded words: its masks are AND-idempotent on them, strictly
clear bits beyond the running best of the settings declared before it,
and no compatible later-declared setting clears more (`ScanWinsAt`) —
conditions a well-formed chip database's distinct, field-structured
setting masks satisfy, and which the duplicate-mask counterexample
violates. -/
theorem decode_encode_fuse_roundtrip (fuseBlank w : List Nat) (fs : List FuseChoice)
    (hw : encodeFuseData fuseBlank (FuseChoice.table fs) (FuseChoice.assignment fs) =
      .ok w)
    (hwin : ∀ f ∈ fs, ScanWinsAt w f) :
    decodeFuseData (FuseChoice.table fs) w = .ok (FuseChoice.assignment fs) :=
  decodeFuseData_of_wins w fs hwin

/-- C1 witness: the round-trip at the concrete two-fuse table, with
`encode {WDT := Disabled, Oscillator := HS} = [0x3FFA]` and decode
returning the same assignment. -/
theorem decode_encode_fuse_roundtrip_witness :
    decodeFuseData (FuseChoice.table fsWitness) [0x3ffa] =
      .ok (FuseChoice.assignment fsWitness) :=
  decode_encode_fuse_roundtrip [0x3fff] [0x3ffa] fsWitness rfl (by decide)

end Picpro
